import Mathlib

/-!
Verification of the probe-geometry and aggregation engine of
`axelrod/fingerprint.py` (class `AshlockFingerprint`).

The Python source is shallowly embedded below.  Real-valued quantities
(the grid step, grid coordinates, Joss-Ann probabilities, scores) are
modelled as rationals; Python operations that can raise (`1 / step` with
`step = 0`, `np.linspace` with a negative sample count, a missing
dictionary key) are modelled with `Option`, where `none` is the raised
exception.  Behaviour transformers (`JossAnnTransformer`,
`DualTransformer`) are opaque class decorators in the source, so their
compositions are modelled syntactically as an inductive tree recording
which transformer was applied in which order and with which parameters.
-/

namespace Fingerprint

/-- A grid point, `Point = namedtuple('Point', 'x y')` in the source,
with coordinates modelled as rationals. -/
abbrev Point := ℚ × ℚ

/-- Python `int()` applied to a real number: truncation toward zero
(`int(-0.5) == 0`, `int(2.7) == 2`). -/
def pyint (q : ℚ) : ℤ :=
  if 0 ≤ q then ⌊q⌋ else -⌊-q⌋

/-- `np.linspace(0, 1, num)`: `none` models the `ValueError` raised for a
negative sample count; `num = 0` gives the empty array, `num = 1` gives
`[0.0]`, and `num ≥ 2` gives `num` evenly spaced samples from 0 to 1
inclusive, the i-th being `i / (num - 1)`. -/
def linspace01 (num : ℤ) : Option (List ℚ) :=
  if num < 0 then none
  else some ((List.range num.toNat).map
    (fun (i : ℕ) => if num = 1 then 0 else (i : ℚ) / ((num : ℚ) - 1)))

/-- `AshlockFingerprint._create_points`.  `none` models the
`ZeroDivisionError` from `1 / self._step` when the step is zero and the
`ValueError` from `np.linspace` when `points_per_side` is negative.  The
nested `for x ... for y ...` loops appending `Point(x, y)` are the
flat-map of the inner map over the outer axis. -/
def createPoints (step : ℚ) : Option (List Point) :=
  if step = 0 then none
  else
    let pointsPerSide : ℤ := pyint (1 / step) + 1
    match linspace01 pointsPerSide with
    | none => none
    | some samples => some (samples.flatMap (fun x => samples.map (fun y => (x, y))))

/-- The behaviour of a probe class as a syntactic composition of
strategy transformers applied to the base probe class
(`self._probe_class`).  `DualTransformer()(c)` is `dual c` and
`JossAnnTransformer((a, b))(c)` is `jossAnn (a, b) c`. -/
inductive Behavior : Type
  | base : Behavior
  | dual : Behavior → Behavior
  | jossAnn : ℚ × ℚ → Behavior → Behavior
deriving DecidableEq, Repr

/-- A probe player: a transformed behaviour instantiated with the
template's stored construction parameters (`self._probe_kwargs`, of
opaque type `K`). -/
structure Probe (K : Type) : Type where
  behavior : Behavior
  kwargs : K
deriving DecidableEq, Repr

/-- `AshlockFingerprint._create_jossann`: for `x + y ≥ 1` the source
builds `DualTransformer()(JossAnnTransformer((1-x, 1-y))(cls))(**kwargs)`
(Joss-Ann applied to the class first, dual outermost); otherwise
`JossAnnTransformer((x, y))(cls)(**kwargs)`. -/
def createJossann (K : Type) (kwargs : K) (point : Point) : Probe K :=
  let x := point.1
  let y := point.2
  if x + y ≥ 1 then
    { behavior := .dual (.jossAnn (1 - x, 1 - y) .base), kwargs := kwargs }
  else
    { behavior := .jossAnn (x, y) .base, kwargs := kwargs }

/-- Modelled from the spec: the probe construction as §4.2 of the spec
describes it — for `x + y ≥ 1` first take the dual of the template's
behaviour, then apply the Joss-Ann distortion with parameters
`(1-x, 1-y)` to the dualized behaviour (dual innermost, distortion
outermost); the missing piece is the spec-side transformer order, which
the source contradicts. -/
def createJossannSpec (K : Type) (kwargs : K) (point : Point) : Probe K :=
  let x := point.1
  let y := point.2
  if x + y ≥ 1 then
    { behavior := .jossAnn (1 - x, 1 - y) (.dual .base), kwargs := kwargs }
  else
    { behavior := .jossAnn (x, y) .base, kwargs := kwargs }

/-- `AshlockFingerprint._create_probes`: one probe per grid point, in
grid order (the progress bar does not alter the list). -/
def createProbes (K : Type) (kwargs : K) (points : List Point) : List (Probe K) :=
  points.map (createJossann K kwargs)

/-- Whether a behaviour composition contains the dual transformer. -/
def Behavior.usesDual : Behavior → Bool
  | .base => false
  | .dual _ => true
  | .jossAnn _ b => b.usesDual

/-- The parameters of the (unique, outermost) Joss-Ann transformer in a
behaviour composition, if any. -/
def Behavior.jossAnnParams : Behavior → Option (ℚ × ℚ)
  | .base => none
  | .dual b => b.jossAnnParams
  | .jossAnn p _ => some p

/-- The list of `n` evenly spaced samples `i / (n - 1)` for `i < n`,
which is what `np.linspace(0, 1, n)` yields for `n ≥ 2`. -/
def samplesQ (n : ℕ) : List ℚ :=
  (List.range n).map (fun (i : ℕ) => (i : ℚ) / ((n : ℚ) - 1))

lemma samplesQ_length (n : ℕ) : (samplesQ n).length = n := by
  simp [samplesQ]

lemma samplesQ_getD (n : ℕ) (i : ℕ) (hi : i < n) (d : ℚ) :
    (samplesQ n).getD i d = (i : ℚ) / ((n : ℚ) - 1) := by
  rw [List.getD_eq_getElem _ _ (by simpa [samplesQ] using hi)]
  simp [samplesQ]

lemma samplesQ_nodup (n : ℕ) (hn : 2 ≤ n) : (samplesQ n).Nodup := by
  apply List.Nodup.map _ (List.nodup_range n)
  intro i j hij
  have hden : ((n : ℚ) - 1) ≠ 0 := by
    have : (2 : ℚ) ≤ (n : ℚ) := by exact_mod_cast hn
    nlinarith
  have : (i : ℚ) = (j : ℚ) := by
    field_simp at hij
    exact_mod_cast hij
  exact_mod_cast this

lemma samplesQ_mem (n : ℕ) (hn : 2 ≤ n) (x : ℚ) (hx : x ∈ samplesQ n) :
    0 ≤ x ∧ x ≤ 1 := by
  simp only [samplesQ, List.mem_map, List.mem_range] at hx
  obtain ⟨i, hi, rfl⟩ := hx
  have hden : (0 : ℚ) < (n : ℚ) - 1 := by
    have : (2 : ℚ) ≤ (n : ℚ) := by exact_mod_cast hn
    linarith
  constructor
  · exact div_nonneg (by positivity) (le_of_lt hden)
  · rw [div_le_one hden]
    have : (i : ℚ) ≤ (n : ℚ) - 1 := by
      have : i ≤ n - 1 := Nat.le_sub_one_of_lt hi
      have h' : (i : ℚ) ≤ ((n - 1 : ℕ) : ℚ) := by exact_mod_cast this
      calc (i : ℚ) ≤ ((n - 1 : ℕ) : ℚ) := h'
        _ ≤ (n : ℚ) - 1 := by
            push_cast [Nat.cast_sub (by omega : 1 ≤ n)]
            linarith
    exact this

lemma linspace01_eq (num : ℤ) (hn : 2 ≤ num) :
    linspace01 num = some (samplesQ num.toNat) := by
  have h0 : ¬ num < 0 := by omega
  have h1 : num ≠ 1 := by omega
  simp only [linspace01, h0, if_false, samplesQ, Option.some.injEq]
  apply List.map_congr_left
  intro i _
  have : ((num.toNat : ℕ) : ℚ) = (num : ℚ) := by
    exact_mod_cast Int.toNat_of_nonneg (by omega)
  rw [if_neg h1, this]

lemma createPoints_pos (step : ℚ) (h0 : 0 < step) (h1 : step ≤ 1) :
    createPoints step =
      some ((samplesQ (⌊1 / step⌋.toNat + 1)) ×ˢ (samplesQ (⌊1 / step⌋.toNat + 1))) := by
  have hstep : step ≠ 0 := ne_of_gt h0
  have hinv : (1 : ℚ) ≤ 1 / step := by
    rw [le_div_iff₀ h0]; linarith
  have hfl : 1 ≤ ⌊1 / step⌋ := by
    exact_mod_cast Int.le_floor.mpr (by exact_mod_cast hinv)
  have hpy : pyint (1 / step) = ⌊1 / step⌋ := by
    rw [pyint, if_pos (by positivity)]
  have hge : 2 ≤ ⌊1 / step⌋ + 1 := by omega
  have htn : (⌊1 / step⌋ + 1).toNat = ⌊1 / step⌋.toNat + 1 := by omega
  rw [createPoints]
  rw [if_neg hstep]
  simp only [hpy, linspace01_eq _ hge, htn]
  rfl

/-- Indexing a flat-map of constant-length blocks: element `i * L + j`
of `xs.flatMap f` is element `j` of block `i`. -/
lemma flatMap_getD {α β : Type} (xs : List α) (f : α → List β) (L : ℕ)
    (hL : ∀ x ∈ xs, (f x).length = L) :
    ∀ (i : ℕ), i < xs.length → ∀ (j : ℕ), j < L → ∀ (d : β) (dx : α),
      (xs.flatMap f).getD (i * L + j) d = (f (xs.getD i dx)).getD j d := by
  induction xs with
  | nil => intro i hi; simp at hi
  | cons x xs ih =>
    intro i hi j hj d dx
    rw [List.flatMap_cons]
    match i with
    | 0 =>
      have hx : (f x).length = L := hL x (List.mem_cons_self x xs)
      rw [Nat.zero_mul, Nat.zero_add, List.getD_append _ _ _ _ (by omega)]
      rfl
    | i + 1 =>
      have hx : (f x).length = L := hL x (List.mem_cons_self x xs)
      have hidx : (i + 1) * L + j = (f x).length + (i * L + j) := by
        rw [hx]; ring
      rw [hidx, List.getD_append_right _ _ _ _ (by omega), Nat.add_sub_cancel_left]
      exact ih (fun y hy => hL y (List.mem_cons_of_mem x hy)) i (by simpa using hi) j hj d dx

lemma flatMap_length_const {α β : Type} (xs : List α) (f : α → List β) (L : ℕ)
    (hL : ∀ x ∈ xs, (f x).length = L) :
    (xs.flatMap f).length = xs.length * L := by
  induction xs with
  | nil => simp
  | cons x xs ih =>
    rw [List.flatMap_cons, List.length_append, hL x (List.mem_cons_self x xs),
      ih (fun y hy => hL y (List.mem_cons_of_mem x hy)), List.length_cons]
    ring

lemma samplesQ_getElem (n : ℕ) (i : ℕ) (hi : i < (samplesQ n).length) :
    (samplesQ n)[i] = (i : ℚ) / ((n : ℚ) - 1) := by
  simp [samplesQ]

lemma pairRow_getD (n : ℕ) (x0 : ℚ) (j : ℕ) (hj : j < n) (d : Point) :
    (((samplesQ n).map (fun b => (x0, b))).getD j d) = (x0, (j : ℚ) / ((n : ℚ) - 1)) := by
  have hlen : j < ((samplesQ n).map (fun b => (x0, b))).length := by
    rw [List.length_map, samplesQ_length]; exact hj
  rw [List.getD_eq_getElem _ _ hlen, List.getElem_map,
    samplesQ_getElem n j (by rw [samplesQ_length]; exact hj)]

lemma product_eq_flatMap (l₁ l₂ : List ℚ) :
    l₁ ×ˢ l₂ = l₁.flatMap (fun x => l₂.map (fun y => (x, y))) := rfl

/-- C4: for every step in (0, 1], the generated point grid has exactly
`(⌊1/step⌋+1)²` elements, all distinct, with both components in `[0, 1]`,
sampled by linear interpolation from 0 to 1 inclusive with
`⌊1/step⌋ + 1` evenly spaced samples per axis, and ordered
x-major/y-minor: the element at flat index `i * n + j` is
`(i / (n-1), j / (n-1))` where `n = ⌊1/step⌋ + 1`. -/
theorem grid_count_distinct_bounds_order (step : ℚ) (h0 : 0 < step) (h1 : step ≤ 1) :
    ∃ pts : List Point, createPoints step = some pts ∧
      pts.length = (⌊1 / step⌋.toNat + 1) ^ 2 ∧
      pts.Nodup ∧
      (∀ p ∈ pts, 0 ≤ p.1 ∧ p.1 ≤ 1 ∧ 0 ≤ p.2 ∧ p.2 ≤ 1) ∧
      (∀ i j : ℕ, i < ⌊1 / step⌋.toNat + 1 → j < ⌊1 / step⌋.toNat + 1 →
        pts.getD (i * (⌊1 / step⌋.toNat + 1) + j) (0, 0) =
          ((i : ℚ) / (((⌊1 / step⌋.toNat + 1 : ℕ) : ℚ) - 1),
           (j : ℚ) / (((⌊1 / step⌋.toNat + 1 : ℕ) : ℚ) - 1))) := by
  set n : ℕ := ⌊1 / step⌋.toNat + 1 with hn
  have hinv : (1 : ℚ) ≤ 1 / step := by
    rw [le_div_iff₀ h0]; linarith
  have hfl : 1 ≤ ⌊1 / step⌋ := by
    exact_mod_cast Int.le_floor.mpr (by exact_mod_cast hinv)
  have hn2 : 2 ≤ n := by
    have : 1 ≤ ⌊1 / step⌋.toNat := by omega
    omega
  refine ⟨samplesQ n ×ˢ samplesQ n, createPoints_pos step h0 h1, ?_, ?_, ?_, ?_⟩
  · rw [List.length_product, samplesQ_length]; ring
  · exact (samplesQ_nodup n hn2).product (samplesQ_nodup n hn2)
  · rintro ⟨a, b⟩ hp
    rw [List.mem_product] at hp
    obtain ⟨ha1, ha2⟩ := samplesQ_mem n hn2 a hp.1
    obtain ⟨hb1, hb2⟩ := samplesQ_mem n hn2 b hp.2
    exact ⟨ha1, ha2, hb1, hb2⟩
  · intro i j hi hj
    rw [product_eq_flatMap]
    rw [flatMap_getD (samplesQ n) _ n
      (fun x _ => by rw [List.length_map, samplesQ_length]) i
      (by rw [samplesQ_length]; exact hi) j hj (0, 0) 0]
    rw [samplesQ_getD n i hi 0, pairRow_getD n _ j hj]

/-- Witness for C4 at the concrete step 1/2: the grid exists and has
9 = 3² points. -/
theorem grid_count_distinct_bounds_order_witness :
    ∃ pts : List Point, createPoints (1/2 : ℚ) = some pts ∧ pts.length = 9 := by
  obtain ⟨pts, hsome, hlen, -, -, -⟩ :=
    grid_count_distinct_bounds_order (1/2 : ℚ) (by norm_num) (by norm_num)
  refine ⟨pts, hsome, ?_⟩
  rw [hlen, show ⌊1 / (1/2 : ℚ)⌋ = 2 from by norm_num]
  decide

lemma linspace01_of_neg (num : ℤ) (h : num < 0) : linspace01 num = none := by
  rw [linspace01, if_pos h]

lemma createPoints_zero : createPoints 0 = none := by
  rw [createPoints, if_pos rfl]

lemma createPoints_near_zero (step : ℚ) (h1 : -1/2 ≤ step) (h2 : step < 0) :
    createPoints step = none := by
  have hstep : step ≠ 0 := ne_of_lt h2
  have hq : 1 / step < 0 := one_div_neg.mpr h2
  have hpy : pyint (1 / step) = -⌊-(1 / step)⌋ := by
    rw [pyint, if_neg (by linarith)]
  have htwo : (2 : ℚ) ≤ -(1 / step) := by
    have hpos : (0 : ℚ) < -step := by linarith
    rw [show -(1 / step) = 1 / (-step) by ring]
    rw [le_div_iff₀ hpos]
    linarith
  have hfl : 2 ≤ ⌊-(1 / step)⌋ := by
    exact_mod_cast Int.le_floor.mpr (by exact_mod_cast htwo)
  rw [createPoints, if_neg hstep]
  simp only [hpy, linspace01_of_neg _ (show -⌊-(1 / step)⌋ + 1 < 0 by omega)]

lemma createPoints_minus_one_half (step : ℚ) (h1 : -1 ≤ step) (h2 : step < -1/2) :
    createPoints step = some [] := by
  have hstep : step ≠ 0 := by intro h; rw [h] at h2; norm_num at h2
  have hq : 1 / step < 0 := one_div_neg.mpr (by linarith)
  have hpy : pyint (1 / step) = -⌊-(1 / step)⌋ := by
    rw [pyint, if_neg (by linarith)]
  have hpos : (0 : ℚ) < -step := by linarith
  have hone : (1 : ℚ) ≤ -(1 / step) := by
    rw [show -(1 / step) = 1 / (-step) by ring, le_div_iff₀ hpos]
    linarith
  have hlt : -(1 / step) < 2 := by
    rw [show -(1 / step) = 1 / (-step) by ring, div_lt_iff₀ hpos]
    linarith
  have hfl : ⌊-(1 / step)⌋ = 1 := by
    apply Int.floor_eq_iff.mpr
    constructor
    · exact_mod_cast hone
    · push_cast; linarith
  rw [createPoints, if_neg hstep, hpy, hfl]
  norm_num [linspace01]

lemma createPoints_below_minus_one (step : ℚ) (h : step < -1) :
    createPoints step = some [((0 : ℚ), (0 : ℚ))] := by
  have hstep : step ≠ 0 := by intro hh; rw [hh] at h; norm_num at h
  have hq : 1 / step < 0 := one_div_neg.mpr (by linarith)
  have hpy : pyint (1 / step) = -⌊-(1 / step)⌋ := by
    rw [pyint, if_neg (by linarith)]
  have hpos : (0 : ℚ) < -step := by linarith
  have hnn : (0 : ℚ) ≤ -(1 / step) := by linarith
  have hlt : -(1 / step) < 1 := by
    rw [show -(1 / step) = 1 / (-step) by ring, div_lt_iff₀ hpos]
    linarith
  have hfl : ⌊-(1 / step)⌋ = 0 := by
    apply Int.floor_eq_iff.mpr
    constructor
    · exact_mod_cast hnn
    · push_cast; linarith
  rw [createPoints, if_neg hstep, hpy, hfl]
  norm_num [linspace01, List.range_succ]

/-- C8 (amended): grid building for a non-positive step fails (raises) exactly
when `-1/2 ≤ step ≤ 0`; for `step < -1/2` no error is raised — the grid is
silently built degenerate: empty for `-1 ≤ step < -1/2` (sample count 0) and
the single point `(0, 0)` for `step < -1` (Python `int` truncates `1/step`
toward zero, giving sample count 1). -/
theorem nonpositive_step_grid (step : ℚ) (hle : step ≤ 0) :
    (createPoints step = none ↔ -1/2 ≤ step) ∧
    (-1 ≤ step → step < -1/2 → createPoints step = some []) ∧
    (step < -1 → createPoints step = some [((0 : ℚ), (0 : ℚ))]) := by
  refine ⟨⟨?_, ?_⟩, createPoints_minus_one_half step, createPoints_below_minus_one step⟩
  · intro hnone
    by_contra hlt
    push_neg at hlt
    rcases lt_or_le step (-1) with h | h
    · rw [createPoints_below_minus_one step h] at hnone
      exact Option.noConfusion hnone
    · rw [createPoints_minus_one_half step h hlt] at hnone
      exact Option.noConfusion hnone
  · intro hge
    rcases eq_or_lt_of_le hle with h | h
    · rw [h]
      exact createPoints_zero
    · exact createPoints_near_zero step hge h

/-- Witness for C8 (amended) at concrete steps: step -1/4 raises, step -2
silently yields the one-point grid. -/
theorem nonpositive_step_grid_witness :
    createPoints (-1/4 : ℚ) = none ∧ createPoints (-2 : ℚ) = some [((0 : ℚ), (0 : ℚ))] :=
  ⟨(nonpositive_step_grid (-1/4) (by norm_num)).1.mpr (by norm_num),
   (nonpositive_step_grid (-2) (by norm_num)).2.2 (by norm_num)⟩

/-- Counterexample to C8 as stated: step -2 is non-positive, yet grid
building does not fail — it produces the grid `[(0, 0)]`. -/
theorem nonpositive_step_no_failure_counterexample :
    (-2 : ℚ) ≤ 0 ∧ createPoints (-2 : ℚ) = some [((0 : ℚ), (0 : ℚ))] := by
  refine ⟨by norm_num, ?_⟩
  norm_num [createPoints, pyint, linspace01, List.range_succ]

/-- C1: the code contradicts the claimed (and documented) transformer order.
At the input `(x, y) = (1, 1)` (where `x + y ≥ 1`), `_create_jossann`
builds `Dual(JossAnn((0, 0))(template))` — the Joss-Ann distortion is
applied to the template first and the dual transform outermost — which
differs from the claimed composition `JossAnn((0, 0))(Dual(template))`
(dual innermost) that the `fingerprint` docstring also describes. -/
theorem dual_jossann_order_bug :
    createJossann Unit () (1, 1) =
      { behavior := .dual (.jossAnn (0, 0) .base), kwargs := () } ∧
    createJossann Unit () (1, 1) ≠ createJossannSpec Unit () (1, 1) := by
  constructor
  · norm_num [createJossann]
  · simp [createJossann, createJossannSpec]

/-- C2: the dual branch is taken exactly when `x + y ≥ 1` (inclusive
boundary) and there uses distortion parameters `(1-x, 1-y)`; for
`x + y < 1` the distortion is applied directly with parameters `(x, y)`
and no dual transformer occurs in the composition. -/
theorem dual_branch_inclusive (K : Type) (kwargs : K) (x y : ℚ) :
    (x + y ≥ 1 →
      (createJossann K kwargs (x, y)).behavior.usesDual = true ∧
      (createJossann K kwargs (x, y)).behavior.jossAnnParams = some (1 - x, 1 - y)) ∧
    (x + y < 1 →
      (createJossann K kwargs (x, y)).behavior.usesDual = false ∧
      (createJossann K kwargs (x, y)).behavior.jossAnnParams = some (x, y)) := by
  constructor
  · intro h
    rw [createJossann]
    simp only [if_pos h]
    exact ⟨rfl, rfl⟩
  · intro h
    rw [createJossann]
    simp only [if_neg (not_le.mpr h)]
    exact ⟨rfl, rfl⟩

/-- Witness for C2 at the boundary (1/2, 1/2) (sum exactly 1: dual branch,
parameters (1/2, 1/2)), at (1, 1) (dual branch, parameters (0, 0)), and at
(0, 0) (no dual, parameters (0, 0)). -/
theorem dual_branch_inclusive_witness :
    ((createJossann Unit () (1/2, 1/2)).behavior.usesDual = true ∧
      (createJossann Unit () (1/2, 1/2)).behavior.jossAnnParams = some (1/2, 1/2)) ∧
    ((createJossann Unit () (1, 1)).behavior.usesDual = true ∧
      (createJossann Unit () (1, 1)).behavior.jossAnnParams = some (0, 0)) ∧
    ((createJossann Unit () (0, 0)).behavior.usesDual = false ∧
      (createJossann Unit () (0, 0)).behavior.jossAnnParams = some (0, 0)) := by
  refine ⟨?_, ?_, ?_⟩
  · have h := (dual_branch_inclusive Unit () (1/2) (1/2)).1 (by norm_num)
    refine ⟨h.1, ?_⟩
    rw [h.2]
    norm_num
  · have h := (dual_branch_inclusive Unit () 1 1).1 (by norm_num)
    refine ⟨h.1, ?_⟩
    rw [h.2]
    norm_num
  · exact (dual_branch_inclusive Unit () 0 0).2 (by norm_num)

lemma grid_getD (n : ℕ) (i j : ℕ) (hi : i < n) (hj : j < n) :
    (samplesQ n ×ˢ samplesQ n).getD (i * n + j) (0, 0) =
      ((i : ℚ) / ((n : ℚ) - 1), (j : ℚ) / ((n : ℚ) - 1)) := by
  rw [product_eq_flatMap]
  rw [flatMap_getD (samplesQ n) _ n
    (fun x _ => by rw [List.length_map, samplesQ_length]) i
    (by rw [samplesQ_length]; exact hi) j hj (0, 0) 0]
  rw [samplesQ_getD n i hi 0, pairRow_getD n _ j hj]

lemma grid_length (n : ℕ) : (samplesQ n ×ˢ samplesQ n).length = n * n := by
  rw [List.length_product, samplesQ_length]

lemma map_range_getD {α : Type} (n : ℕ) (g : ℕ → α) (c : ℕ) (hc : c < n) (d : α) :
    ((List.range n).map g).getD c d = g c := by
  rw [List.getD_eq_getElem _ _ (by simpa using hc), List.getElem_map, List.getElem_range]

lemma reverse_map_range_getD {α : Type} (n : ℕ) (g : ℕ → α) (r : ℕ) (hr : r < n) (d : α) :
    (((List.range n).map g).reverse).getD r d = g (n - 1 - r) := by
  rw [List.getD_eq_getElem _ _ (by simpa using hr), List.getElem_reverse,
    List.getElem_map, List.getElem_range]
  simp

/-- `AshlockFingerprint._reshape_data`: orders the scores by grid position
(`[self.data[point] for point in self.points]`), reinterprets the flat
sequence as a `side_len × side_len` matrix in column-major order
(`np.reshape(..., order='F')`, whose entry at row `r`, column `c` is flat
element `c * side_len + r`), and reverses the row order (`np.flipud`).
The score mapping is modelled as a function `data` on points (the dict
built by `_generate_data`); `side_len = int(1/step) + 1` is taken as a
natural number, which agrees with the source for every step that builds
a grid. -/
def reshapeData (step : ℚ) (points : List Point) (data : Point → ℚ) : List (List ℚ) :=
  let sideLen : ℕ := (pyint (1 / step) + 1).toNat
  let ordered : List ℚ := points.map data
  let shaped : List (List ℚ) :=
    (List.range sideLen).map
      (fun (r : ℕ) => (List.range sideLen).map
        (fun (c : ℕ) => ordered.getD (c * sideLen + r) 0))
  shaped.reverse

/-- C3: reshaping interprets the flat x-major/y-minor score sequence
column-major into an `L × L` matrix and reverses the row order: entry
`[r][c]` holds the score of the coordinate with `x = c/(L-1)` and
`y = (L-1-r)/(L-1)` (column index is x, row index is y decreasing
downward); in particular `[0][0]` holds the score of `(0, 1)` and
`[L-1][L-1]` the score of `(1, 0)`, where `L = ⌊1/step⌋ + 1`. -/
theorem reshape_orientation (step : ℚ) (h0 : 0 < step) (h1 : step ≤ 1)
    (pts : List Point) (hpts : createPoints step = some pts) (data : Point → ℚ) :
    (∀ r c : ℕ, r < ⌊1 / step⌋.toNat + 1 → c < ⌊1 / step⌋.toNat + 1 →
      ((reshapeData step pts data).getD r []).getD c 0 =
        data ((c : ℚ) / (((⌊1 / step⌋.toNat + 1 : ℕ) : ℚ) - 1),
              ((((⌊1 / step⌋.toNat + 1 : ℕ) : ℚ) - 1 - (r : ℚ)) /
                (((⌊1 / step⌋.toNat + 1 : ℕ) : ℚ) - 1)))) ∧
    ((reshapeData step pts data).getD 0 []).getD 0 0 = data (0, 1) ∧
    ((reshapeData step pts data).getD ⌊1 / step⌋.toNat []).getD ⌊1 / step⌋.toNat 0 =
      data (1, 0) := by
  set n : ℕ := ⌊1 / step⌋.toNat + 1 with hn
  have hinv : (1 : ℚ) ≤ 1 / step := by
    rw [le_div_iff₀ h0]; linarith
  have hfl : 1 ≤ ⌊1 / step⌋ := by
    exact_mod_cast Int.le_floor.mpr (by exact_mod_cast hinv)
  have hn2 : 2 ≤ n := by
    have : 1 ≤ ⌊1 / step⌋.toNat := by omega
    omega
  have hden : ((n : ℚ) - 1) ≠ 0 := by
    have : (2 : ℚ) ≤ (n : ℚ) := by exact_mod_cast hn2
    nlinarith
  have hpy : pyint (1 / step) = ⌊1 / step⌋ := by
    rw [pyint, if_pos (by positivity)]
  have hside : (pyint (1 / step) + 1).toNat = n := by
    rw [hpy]; omega
  have hpts' : pts = samplesQ n ×ˢ samplesQ n := by
    have h := hpts.symm.trans (createPoints_pos step h0 h1)
    exact Option.some_inj.mp h
  have hmain : ∀ r c : ℕ, r < n → c < n →
      ((reshapeData step pts data).getD r []).getD c 0 =
        data ((c : ℚ) / ((n : ℚ) - 1), ((n : ℚ) - 1 - (r : ℚ)) / ((n : ℚ) - 1)) := by
    intro r c hr hc
    simp only [reshapeData, hside]
    rw [reverse_map_range_getD n _ r hr []]
    rw [map_range_getD n _ c hc 0]
    have hjr : n - 1 - r < n := by omega
    have hk : c * n + (n - 1 - r) < pts.length := by
      rw [hpts', grid_length]
      have h1' : c * n ≤ (n - 1) * n := Nat.mul_le_mul_right n (by omega)
      have h2' : n - 1 - r < n := hjr
      calc c * n + (n - 1 - r) ≤ (n - 1) * n + (n - 1 - r) := by omega
        _ < (n - 1) * n + n := by omega
        _ = n * n := by
            have : 1 ≤ n := by omega
            nlinarith [Nat.sub_add_cancel this]
    rw [List.getD_eq_getElem (pts.map data) 0 (by rw [List.length_map]; exact hk)]
    rw [List.getElem_map]
    have : pts[c * n + (n - 1 - r)] = ((c : ℚ) / ((n : ℚ) - 1), ((n - 1 - r : ℕ) : ℚ) / ((n : ℚ) - 1)) := by
      rw [← List.getD_eq_getElem pts (0, 0) hk]
      rw [hpts', grid_getD n c (n - 1 - r) hc hjr]
    rw [this]
    have hcast : ((n - 1 - r : ℕ) : ℚ) = (n : ℚ) - 1 - (r : ℚ) := by
      have h1' : 1 ≤ n := by omega
      have h2' : r ≤ n - 1 := by omega
      push_cast [Nat.cast_sub h2', Nat.cast_sub h1']
      ring
    rw [hcast]
  refine ⟨hmain, ?_, ?_⟩
  · have h := hmain 0 0 (by omega) (by omega)
    rw [h]
    norm_num [div_self hden]
  · have h := hmain (n - 1) (n - 1) (by omega) (by omega)
    have hidx : n - 1 = ⌊1 / step⌋.toNat := by omega
    rw [hidx] at h
    rw [h]
    have hcast : ((⌊1 / step⌋.toNat : ℕ) : ℚ) = (n : ℚ) - 1 := by
      rw [hn]
      push_cast
      ring
    rw [hcast]
    norm_num [div_self hden]

/-- The nine-point grid for step 1/2, in the source's x-major/y-minor
enumeration order. -/
def gridHalf : List Point :=
  [(0, 0), (0, 1/2), (0, 1), (1/2, 0), (1/2, 1/2), (1/2, 1), (1, 0), (1, 1/2), (1, 1)]

lemma createPoints_half : createPoints (1/2 : ℚ) = some gridHalf := by
  have h1 : pyint (1 / (1/2 : ℚ)) = 2 := by norm_num [pyint]
  have h2 : linspace01 3 = some [0, 1/2, 1] := by
    simp only [linspace01, show ((3:ℤ).toNat = 3) from rfl, List.range_succ, List.range_zero,
      List.map_cons, List.map_nil, List.nil_append, List.cons_append]
    norm_num
  rw [createPoints, if_neg (by norm_num)]
  simp only [h1]
  norm_num [h2, gridHalf, List.flatMap_cons, List.flatMap_nil]

/-- Witness for C3 with step 1/2 and the concrete score function
`p ↦ p.1 + 10·p.2`: matrix entry [0][0] holds the score of coordinate
(0, 1), namely 10, and entry [2][2] holds the score of (1, 0), namely 1. -/
theorem reshape_orientation_witness :
    ((reshapeData (1/2 : ℚ) gridHalf (fun p => p.1 + 10 * p.2)).getD 0 []).getD 0 0 = 10 ∧
    ((reshapeData (1/2 : ℚ) gridHalf (fun p => p.1 + 10 * p.2)).getD 2 []).getD 2 0 = 1 := by
  have h := reshape_orientation (1/2 : ℚ) (by norm_num) (by norm_num) gridHalf
    createPoints_half (fun p => p.1 + 10 * p.2)
  have hfl : ⌊1 / (1/2 : ℚ)⌋.toNat = 2 := by
    rw [show ⌊1 / (1/2 : ℚ)⌋ = 2 from by norm_num]
    rfl
  constructor
  · have hc := h.2.1
    rw [hc]
    norm_num
  · have hc := h.2.2
    rw [hfl] at hc
    rw [hc]
    norm_num

/-- A Python list comprehension whose body looks an element up in a
dictionary: `none` models the `KeyError` escaping the comprehension. -/
def mapLookup {α β : Type} : List α → (α → Option β) → Option (List β)
  | [], _ => some []
  | a :: as, f =>
    match f a with
    | none => none
    | some b =>
      match mapLookup as f with
      | none => none
      | some bs => some (b :: bs)

lemma mapLookup_all_some {α β : Type} (l : List α) (f : α → Option β) (g : α → β)
    (h : ∀ a ∈ l, f a = some (g a)) : mapLookup l f = some (l.map g) := by
  induction l with
  | nil => rfl
  | cons a as ih =>
    rw [List.map_cons, mapLookup, h a (List.mem_cons_self a as),
      ih (fun x hx => h x (List.mem_cons_of_mem a hx))]

lemma mapLookup_missing {α β : Type} (l : List α) (f : α → Option β) (a : α)
    (ha : a ∈ l) (hf : f a = none) : mapLookup l f = none := by
  induction l with
  | nil => cases ha
  | cons b bs ih =>
    rw [mapLookup]
    rcases List.mem_cons.mp ha with h | h
    · rw [← h, hf]
    · cases hfb : f b with
      | none => rfl
      | some v => rw [ih h]

/-- `np.mean` over a list of per-trial scores. -/
def meanQ (l : List ℚ) : ℚ := l.sum / (l.length : ℚ)

/-- `AshlockFingerprint._generate_data`.  `T` is the opaque type of one
trial's raw interaction record; `finalScorePerTurn` models the external
`compute_final_score_per_turn`, whose first component is the subject's
per-turn-normalised final score.  `interactions` is the dictionary from
pairing edge to trial records (`none` = key absent).  The edge-score
comprehension runs first (a missing key raises there), then the scores
are zipped positionally onto `points`; the resulting association list is
the built dict (its keys are distinct whenever the grid's points
are). -/
def generateData (T : Type) (finalScorePerTurn : T → ℚ × ℚ)
    (points : List Point) (interactions : ℕ × ℕ → Option (List T))
    (edges : List (ℕ × ℕ)) : Option (List (Point × ℚ)) :=
  match mapLookup edges
      (fun e => (interactions e).map
        (fun trials => meanQ (trials.map (fun t => (finalScorePerTurn t).1)))) with
  | none => none
  | some edgeScores => some (points.zip edgeScores)

/-- `fingerprint`'s pairing edges: `[(0, i) for i in range(1, N + 1)]`
where `N` is the number of probes. -/
def fingerprintEdges (n : ℕ) : List (ℕ × ℕ) :=
  (List.range' 1 n).map (fun i => (0, i))

lemma fingerprintEdges_getElem (n k : ℕ) (hk : k < (fingerprintEdges n).length) :
    (fingerprintEdges n)[k] = (0, k + 1) := by
  rw [List.getElem_of_eq
    (show fingerprintEdges n = (List.range' 1 n).map (fun i => ((0 : ℕ), i)) from rfl) hk,
    List.getElem_map, List.getElem_range']
  simp [Nat.add_comm]

/-- `fingerprint`'s tournament players: `[self.player] + self._probe_list`. -/
def tournPlayers (P : Type) (player : P) (probeList : List P) : List P :=
  player :: probeList

/-- C5: aggregation over the fingerprint's edges maps edge i (edges
indexed from 1) to grid coordinate grid[i-1]; each edge's score is the
mean over all its trials of the subject's per-turn-normalised final
score; the score map's keys are exactly the grid's coordinates and its
cardinality equals the grid's. -/
theorem aggregation_positional (T : Type) (f : T → ℚ × ℚ) (points : List Point)
    (interactions : ℕ × ℕ → Option (List T)) (trials : ℕ × ℕ → List T)
    (hcov : ∀ e ∈ fingerprintEdges points.length, interactions e = some (trials e)) :
    ∃ sm : List (Point × ℚ),
      generateData T f points interactions (fingerprintEdges points.length) = some sm ∧
      sm.map Prod.fst = points ∧
      sm.length = points.length ∧
      (∀ i : ℕ, i < points.length →
        sm.getD i ((0, 0), 0) =
          (points.getD i (0, 0),
           meanQ ((trials (0, i + 1)).map (fun t => (f t).1)))) := by
  set g : ℕ × ℕ → ℚ := fun e => meanQ ((trials e).map (fun t => (f t).1)) with hg
  have hml : mapLookup (fingerprintEdges points.length)
      (fun e => (interactions e).map
        (fun tr => meanQ (tr.map (fun t => (f t).1)))) =
      some ((fingerprintEdges points.length).map g) := by
    apply mapLookup_all_some
    intro e he
    rw [hcov e he]
    rfl
  have hedgelen : (fingerprintEdges points.length).length = points.length := by
    rw [fingerprintEdges, List.length_map, List.length_range']
  refine ⟨points.zip ((fingerprintEdges points.length).map g), ?_, ?_, ?_, ?_⟩
  · rw [generateData, hml]
  · exact List.map_fst_zip _ _ (by rw [List.length_map, hedgelen])
  · rw [List.length_zip, List.length_map, hedgelen, Nat.min_self]
  · intro i hi
    have hzlen : i < (points.zip ((fingerprintEdges points.length).map g)).length := by
      rw [List.length_zip, List.length_map, hedgelen, Nat.min_self]
      exact hi
    rw [List.getD_eq_getElem _ _ hzlen, List.getElem_zip, List.getElem_map]
    have hib : i < (fingerprintEdges points.length).length := by
      rw [hedgelen]; exact hi
    have hedge : (fingerprintEdges points.length)[i] = (0, i + 1) :=
      fingerprintEdges_getElem points.length i hib
    rw [hedge, List.getD_eq_getElem points (0, 0) hi]

/-- Witness for C5: two grid points, trials scoring edge (0, i) with
value i; the score map pairs each point with its edge's mean in order. -/
theorem aggregation_positional_witness :
    ∃ sm : List (Point × ℚ),
      generateData ℚ (fun q => (q, 0)) [((0 : ℚ), (0 : ℚ)), ((0 : ℚ), (1 : ℚ))]
        (fun e => some [(e.2 : ℚ)]) (fingerprintEdges 2) = some sm ∧
      sm.map Prod.fst = [((0 : ℚ), (0 : ℚ)), ((0 : ℚ), (1 : ℚ))] ∧
      sm.length = 2 := by
  obtain ⟨sm, hgen, hkeys, hlen, -⟩ := aggregation_positional ℚ (fun q => (q, 0))
    [((0 : ℚ), (0 : ℚ)), ((0 : ℚ), (1 : ℚ))] (fun e => some [(e.2 : ℚ)])
    (fun e => [(e.2 : ℚ)]) (fun e _ => rfl)
  exact ⟨sm, hgen, hkeys, hlen⟩

/-- C6 (amended): if any edge listed in the edges sequence has no entry
in the outcomes mapping, aggregation raises the KeyError (no score map
is produced, no default value is substituted).  The outcome count per
edge, however, is not validated against the expected repetitions — see
the counterexample theorem. -/
theorem aggregation_missing_edge (T : Type) (f : T → ℚ × ℚ) (points : List Point)
    (interactions : ℕ × ℕ → Option (List T)) (edges : List (ℕ × ℕ))
    (e : ℕ × ℕ) (he : e ∈ edges) (hmiss : interactions e = none) :
    generateData T f points interactions edges = none := by
  rw [generateData, mapLookup_missing edges _ e he (by rw [hmiss]; rfl)]

/-- Witness for C6 (amended): a single edge with no outcome entry makes
aggregation fail. -/
theorem aggregation_missing_edge_witness :
    generateData Unit (fun _ => (3, 0)) [((0 : ℚ), (0 : ℚ))] (fun _ => none) [(0, 1)] =
      none :=
  aggregation_missing_edge Unit (fun _ => (3, 0)) [((0 : ℚ), (0 : ℚ))] (fun _ => none)
    [(0, 1)] (0, 1) (List.mem_singleton.mpr rfl) rfl

/-- The outcomes dictionary for the C6 counterexample: edge (0, 1) is
present but holds only two trial records. -/
def cexOutcomes : ℕ × ℕ → Option (List Unit) :=
  fun e => if e = (0, 1) then some [(), ()] else none

/-- Counterexample to C6 as stated: with an expected repetition count of
3 but only 2 recorded trials for edge (0, 1), aggregation raises no
error — it returns the score map built from the mean over the trials
that are present (the repetition count is never checked; `_generate_data`
does not even receive it). -/
theorem aggregation_repetition_mismatch_counterexample :
    cexOutcomes (0, 1) = some [(), ()] ∧
    (2 : ℕ) ≠ 3 ∧
    generateData Unit (fun _ => (3, 0)) [((0 : ℚ), (0 : ℚ))] cexOutcomes [(0, 1)] =
      some [(((0 : ℚ), (0 : ℚ)), 3)] := by
  refine ⟨rfl, by norm_num, ?_⟩
  norm_num [generateData, mapLookup, cexOutcomes, meanQ, List.zip_cons_cons]

/-- C7: the batch places the subject at index 0 and the N battery probes
at indices 1..N; the pairing edges are exactly (0, i) for i in 1..N —
a star topology with exactly one edge per probe, in battery order, and
no other pairings. -/
theorem star_topology (P : Type) (player : P) (probes : List P) (d : P) :
    (tournPlayers P player probes).length = probes.length + 1 ∧
    (tournPlayers P player probes).getD 0 d = player ∧
    (∀ i : ℕ, 1 ≤ i → i ≤ probes.length →
      (tournPlayers P player probes).getD i d = probes.getD (i - 1) d) ∧
    (fingerprintEdges probes.length).length = probes.length ∧
    (∀ k : ℕ, k < probes.length →
      (fingerprintEdges probes.length).getD k (0, 0) = (0, k + 1)) ∧
    (∀ e : ℕ × ℕ, e ∈ fingerprintEdges probes.length ↔
      ∃ i : ℕ, 1 ≤ i ∧ i ≤ probes.length ∧ e = (0, i)) := by
  refine ⟨by simp [tournPlayers], rfl, ?_, ?_, ?_, ?_⟩
  · intro i h1 _
    match i, h1 with
    | i + 1, _ =>
      rw [tournPlayers, List.getD_cons_succ, Nat.add_sub_cancel]
  · rw [fingerprintEdges, List.length_map, List.length_range']
  · intro k hk
    have hlen : k < (fingerprintEdges probes.length).length := by
      rw [fingerprintEdges, List.length_map, List.length_range']
      exact hk
    rw [List.getD_eq_getElem _ _ hlen]
    exact fingerprintEdges_getElem probes.length k hlen
  · intro e
    rw [fingerprintEdges]
    simp only [List.mem_map, List.mem_range']
    constructor
    · rintro ⟨a, ⟨i, hi, rfl⟩, rfl⟩
      exact ⟨1 + 1 * i, by omega, by omega, rfl⟩
    · rintro ⟨i, h1, h2, rfl⟩
      exact ⟨i, ⟨i - 1, by omega, by omega⟩, rfl⟩

/-- Witness for C7 with subject 7 and probes [8, 9]: subject at index 0,
probe 9 at index 2, second edge (0, 2), edge (0, 1) present, and the
probe-vs-probe pairing (1, 2) absent. -/
theorem star_topology_witness :
    (tournPlayers ℕ 7 [8, 9]).getD 0 0 = 7 ∧
    (tournPlayers ℕ 7 [8, 9]).getD 2 0 = 9 ∧
    (fingerprintEdges 2).getD 1 (0, 0) = (0, 2) ∧
    (0, 1) ∈ fingerprintEdges 2 ∧
    (1, 2) ∉ fingerprintEdges 2 := by
  have h := star_topology ℕ 7 [8, 9] 0
  refine ⟨h.2.1, ?_, ?_, ?_, ?_⟩
  · have hi := h.2.2.1 2 (by norm_num) (by norm_num)
    simpa using hi
  · exact h.2.2.2.2.1 1 (by norm_num)
  · exact (h.2.2.2.2.2 (0, 1)).mpr ⟨1, by norm_num, by norm_num, rfl⟩
  · intro hmem
    obtain ⟨i, -, -, he⟩ := (h.2.2.2.2.2 (1, 2)).mp hmem
    exact absurd he (by simp)

/-- The mutable attributes of an `AshlockFingerprint` object that the
probe-geometry engine touches.  `K` is the opaque type of the probe
template's construction parameters, `T` the opaque type of one trial's
interaction record, `TS` the opaque type of the spatial tournament
object. -/
structure FPState (K T TS : Type) : Type where
  step : ℚ
  probeKwargs : K
  points : List Point
  probeList : List (Probe K)
  interactions : ℕ × ℕ → Option (List T)
  spatialTournament : Option TS
  data : List (Point × ℚ)

/-- `AshlockFingerprint.__init__` (its probe-geometry fields): builds
the grid and probe battery for the given step, and initialises
`interactions = {}`, `spatial_tournament = None`, `data = {}`.
`none` models a constructor raising while building the grid. -/
def initState (K T TS : Type) (kwargs : K) (step : ℚ) : Option (FPState K T TS) :=
  match createPoints step with
  | none => none
  | some pts => some
      { step := step
        probeKwargs := kwargs
        points := pts
        probeList := createProbes K kwargs pts
        interactions := fun _ => none
        spatialTournament := none
        data := [] }

/-- The `step` property setter: stores the new step, then rebuilds
`self.points` and `self._probe_list` in full; no other attribute is
assigned.  `none` models `_create_points` raising. -/
def setStep (K T TS : Type) (s : FPState K T TS) (newStep : ℚ) :
    Option (FPState K T TS) :=
  match createPoints newStep with
  | none => none
  | some pts => some
      { s with
        step := newStep
        points := pts
        probeList := createProbes K s.probeKwargs pts }

/-- The `new_step` handling at the top of `fingerprint`:
`if new_step: self.step = new_step` — a truthiness test, so `None` and
`0.0` both leave the object untouched, and any nonzero value goes
through the `step` setter (which rebuilds grid and probes) before the
tournament is constructed. -/
def fingerprintStepUpdate (K T TS : Type) (s : FPState K T TS)
    (newStep : Option ℚ) : Option (FPState K T TS) :=
  match newStep with
  | none => some s
  | some q => if q = 0 then some s else setStep K T TS s q

/-- C9: a successful `step` assignment changes only the stored step, the
point grid and the probe list — the grid and probes are rebuilt exactly
as fresh construction with the new step would build them — while the
previously computed interactions, tournament reference, data and stored
template parameters are left unchanged (stale). -/
theorem set_step_frame (K T TS : Type) (s : FPState K T TS) (ns : ℚ)
    (s' : FPState K T TS) (h : setStep K T TS s ns = some s') :
    s'.interactions = s.interactions ∧
    s'.spatialTournament = s.spatialTournament ∧
    s'.data = s.data ∧
    s'.probeKwargs = s.probeKwargs ∧
    s'.step = ns ∧
    createPoints ns = some s'.points ∧
    s'.probeList = createProbes K s.probeKwargs s'.points ∧
    (∀ f : FPState K T TS, initState K T TS s.probeKwargs ns = some f →
      s'.points = f.points ∧ s'.probeList = f.probeList) := by
  rw [setStep] at h
  cases hc : createPoints ns with
  | none => rw [hc] at h; exact Option.noConfusion h
  | some pts =>
    rw [hc] at h
    have hs' := Option.some_inj.mp h
    subst hs'
    refine ⟨rfl, rfl, rfl, rfl, rfl, rfl, rfl, ?_⟩
    intro f hf
    rw [initState, hc] at hf
    have hf' := Option.some_inj.mp hf
    subst hf'
    exact ⟨rfl, rfl⟩

/-- A concrete fingerprint object state with stale downstream results
(nonempty interactions, a tournament reference and score data), used to
witness the frame conditions. -/
def staleState : FPState Unit Unit Unit :=
  { step := 1
    probeKwargs := ()
    points := [(0, 0), (0, 1), (1, 0), (1, 1)]
    probeList := createProbes Unit () [(0, 0), (0, 1), (1, 0), (1, 1)]
    interactions := fun e => if e = (0, 1) then some [()] else none
    spatialTournament := some ()
    data := [((0, 0), 5)] }

/-- Witness for C9: setting step 1/2 on the stale state succeeds, keeps
the stale data, tournament reference and interactions, stores the new
step, and rebuilds the nine-point grid. -/
theorem set_step_frame_witness :
    ∃ s' : FPState Unit Unit Unit,
      setStep Unit Unit Unit staleState (1/2) = some s' ∧
      s'.data = [(((0 : ℚ), (0 : ℚ)), 5)] ∧
      s'.spatialTournament = some () ∧
      s'.interactions = staleState.interactions ∧
      s'.step = 1/2 ∧
      createPoints (1/2 : ℚ) = some s'.points := by
  have hset : ∃ s', setStep Unit Unit Unit staleState (1/2) = some s' := by
    rw [setStep, createPoints_half]
    exact ⟨_, rfl⟩
  obtain ⟨s', hs⟩ := hset
  obtain ⟨hi, ht, hd, -, hstep, hpts, -, -⟩ :=
    set_step_frame Unit Unit Unit staleState (1/2) s' hs
  exact ⟨s', hs, hd, ht, hi, hstep, hpts⟩

/-- C10: `fingerprint` tests `new_step` by truthiness, not presence:
`None` and `0` (Python `0.0`) leave the existing step, grid and probe
list unchanged with no error, while any nonzero `new_step` goes through
the step setter, which stores it and fully rebuilds grid and probes
(exactly the setter's behaviour) before the tournament is built. -/
theorem new_step_truthiness (K T TS : Type) (s : FPState K T TS) :
    fingerprintStepUpdate K T TS s none = some s ∧
    fingerprintStepUpdate K T TS s (some 0) = some s ∧
    (∀ q : ℚ, q ≠ 0 →
      fingerprintStepUpdate K T TS s (some q) = setStep K T TS s q ∧
      (∀ s' : FPState K T TS, setStep K T TS s q = some s' →
        s'.step = q ∧ createPoints q = some s'.points ∧
        s'.probeList = createProbes K s.probeKwargs s'.points ∧
        s'.data = s.data ∧ s'.interactions = s.interactions ∧
        s'.spatialTournament = s.spatialTournament)) := by
  refine ⟨rfl, by rw [fingerprintStepUpdate, if_pos rfl], ?_⟩
  intro q hq
  constructor
  · rw [fingerprintStepUpdate, if_neg hq]
  · intro s' h
    rw [setStep] at h
    cases hc : createPoints q with
    | none => rw [hc] at h; exact Option.noConfusion h
    | some pts =>
      rw [hc] at h
      have hs' := Option.some_inj.mp h
      subst hs'
      exact ⟨rfl, rfl, rfl, rfl, rfl, rfl⟩

/-- Witness for C10 on the concrete stale state: `None` and `0` are
no-ops, and the nonzero step 1/2 routes through the setter. -/
theorem new_step_truthiness_witness :
    fingerprintStepUpdate Unit Unit Unit staleState none = some staleState ∧
    fingerprintStepUpdate Unit Unit Unit staleState (some 0) = some staleState ∧
    fingerprintStepUpdate Unit Unit Unit staleState (some (1/2)) =
      setStep Unit Unit Unit staleState (1/2) := by
  have h := new_step_truthiness Unit Unit Unit staleState
  exact ⟨h.1, h.2.1, (h.2.2 (1/2) (by norm_num)).1⟩

end Fingerprint
